import Mathlib

/-!
Shallow embedding of `cmd/cbft/app_herder.go` (the memory-admission
controller `appHerder`) and proofs of its specification claims.

Modelling conventions:
* Go `uint64` values are `Nat`; every arithmetic operation the Go code
  performs on `uint64` is taken modulo `2^64` via `add64` / `sub64`
  (Go unsigned arithmetic wraps silently).
* The Go map `map[interface{}]sizeFunc` keyed by opaque handles is an
  association list `List (H × (H → Nat))` with unique keys maintained by
  `insertEntry` / `eraseEntry`; `H` stands for Go `interface{}`.
* The mutex and condition variable have no direct counterpart: functions
  that run entirely under the lock become pure state transformers, and the
  blocking wait loop of `onBatchExecuteStart` becomes the relation
  `waitLoop`, whose `wait` step lets the environment (other threads
  holding the lock while this one is parked in `Wait`) rewrite the state
  arbitrarily before the predicate is re-checked.
* Calls to `waitCond.Broadcast()` are recorded as a `Bool` component in
  the result of each operation, so "which operations wake waiters" is
  observable.
* Log statements (`log.Printf`, `log.Warnf`) have no semantic effect and
  are dropped.
-/

/-- Modulus of Go `uint64` arithmetic, `2 ^ 64`. -/
def u64Mod : Nat := 18446744073709551616

theorem u64Mod_eq : u64Mod = 2 ^ 64 := by norm_num [u64Mod]

/-- Go `uint64` addition: `a + b` wrapping modulo `2^64`. -/
def add64 (a b : Nat) : Nat := (a + b) % u64Mod

/-- Go `uint64` subtraction: `a - b` wrapping modulo `2^64`. -/
def sub64 (a b : Nat) : Nat := (a + (u64Mod - b % u64Mod)) % u64Mod

/-- Embedding of Go `type sizeFunc func(interface{}) uint64`: a size probe
applied to the index handle it was registered with. -/
def sizeFunc (H : Type) : Type := H → Nat

/-- Embedding of `struct appHerder`. The `m sync.Mutex` and
`waitCond *sync.Cond` fields are modelled by the operational semantics
(`waitLoop`) rather than stored; `indexes` is the association-list view of
the Go map. -/
structure AppHerder (H : Type) where
  memQuota : Nat
  appQuota : Nat
  indexQuota : Nat
  queryQuota : Nat
  waiting : Nat
  indexes : List (H × sizeFunc H)
  runningQueryUsed : Nat

/-- Go map assignment `a.indexes[c] = s`: overwrite the entry for the key
if present, otherwise append a new entry. -/
def insertEntry {H : Type} [DecidableEq H] (c : H) (f : sizeFunc H) :
    List (H × sizeFunc H) → List (H × sizeFunc H)
  | [] => [(c, f)]
  | (k, g) :: rest =>
      if k = c then (c, f) :: rest else (k, g) :: insertEntry c f rest

/-- Go `delete(a.indexes, c)`: drop the entry for the key (keys are unique
in every reachable state, so dropping the first occurrence is the map
semantics). -/
def eraseEntry {H : Type} [DecidableEq H] (c : H) :
    List (H × sizeFunc H) → List (H × sizeFunc H)
  | [] => []
  | (k, g) :: rest =>
      if k = c then rest else (k, g) :: eraseEntry c rest

/-- Mathematical (unbounded) sum of the size probes of the tracked
indexes, used to state the specification claims; the code itself computes
the wrapping sum `indexingMemoryLOCKED`. -/
def sumProbes {H : Type} (l : List (H × sizeFunc H)) : Nat :=
  (l.map fun p => p.2 p.1).sum

/-- Embedding of `newAppHerder`. The Go code computes the derived quotas
with `float64` multiplication and a truncating `uint64(...)` conversion;
this is modelled by exact rational arithmetic with the ratios as `ℚ` and
truncation as `Int.floor` followed by `Int.toNat` (for the non-negative
ratios the claims quantify over, the two agree up to `float64` rounding,
which the rational model renders exact). -/
def newAppHerder (H : Type) (memQuota : Nat)
    (appRatio indexRatio queryRatio : ℚ) : AppHerder H :=
  let appQuota : Nat := (⌊(memQuota : ℚ) * appRatio⌋).toNat
  let indexQuota : Nat := (⌊(appQuota : ℚ) * indexRatio⌋).toNat
  let queryQuota : Nat := (⌊(appQuota : ℚ) * queryRatio⌋).toNat
  { memQuota := memQuota
    appQuota := appQuota
    indexQuota := indexQuota
    queryQuota := queryQuota
    waiting := 0
    indexes := []
    runningQueryUsed := 0 }

/-- Embedding of `indexingMemoryLOCKED`: `rv += indexSizeFunc(index)` over
all tracked indexes, with `uint64` wraparound at every addition. -/
def indexingMemoryLOCKED {H : Type} (s : AppHerder H) : Nat :=
  s.indexes.foldl (fun rv p => add64 rv (p.2 p.1)) 0

/-- Embedding of `overMemQuotaForIndexingLOCKED`: first check indexing
memory alone against `indexQuota`, then indexing plus running queries
against `appQuota`; both comparisons are strict. -/
def overMemQuotaForIndexingLOCKED {H : Type} (s : AppHerder H) : Bool :=
  let memUsed := indexingMemoryLOCKED s
  if memUsed > s.indexQuota then
    true
  else
    decide (add64 memUsed s.runningQueryUsed > s.appQuota)

/-- Embedding of `onClose` (the `unregister` signal): delete the handle
from the tracked map. The `Bool` result records that `onClose` performs no
`Broadcast`. -/
def onClose {H : Type} [DecidableEq H] (c : H) (s : AppHerder H) :
    AppHerder H × Bool :=
  ({ s with indexes := eraseEntry c s.indexes }, false)

/-- First half of `onBatchExecuteStart` (the `register` signal): the map
assignment `a.indexes[c] = s`, performed before the admission wait loop. -/
def registerEntry {H : Type} [DecidableEq H] (c : H) (f : sizeFunc H)
    (s : AppHerder H) : AppHerder H :=
  { s with indexes := insertEntry c f s.indexes }

/-- Operational model of the wait loop
`for a.overMemQuotaForIndexingLOCKED() { a.waiting++; a.waitCond.Wait(); a.waiting-- }`.
The `exit` step is the loop guard evaluating to `false` (the only way the
loop — and hence `onBatchExecuteStart` — returns). In the `wait` step the
thread has observed the guard `true`, incremented `waiting`, and parked in
`Wait`, which releases the lock; `t` is the arbitrary state other threads
have produced by the time this thread is woken and reacquires the lock
(wakeups are nondeterministic, covering spurious ones), after which it
decrements `waiting` and re-checks the guard. -/
inductive waitLoop {H : Type} : AppHerder H → AppHerder H → Prop
  | exit (s : AppHerder H)
      (hover : overMemQuotaForIndexingLOCKED s = false) :
      waitLoop s s
  | wait (s t u : AppHerder H)
      (hover : overMemQuotaForIndexingLOCKED s = true)
      (hrest : waitLoop { t with waiting := t.waiting - 1 } u) :
      waitLoop s u

/-- Embedding of `onBatchExecuteStart` (the `register` signal) as a
relation between the state at entry and the state at return: first the
map assignment, then the admission wait loop. -/
def onBatchExecuteStart {H : Type} [DecidableEq H] (c : H) (f : sizeFunc H)
    (s u : AppHerder H) : Prop :=
  waitLoop (registerEntry c f s) u

/-- Embedding of `onPersisterProgress` (the `notifyProgress` signal): no
state change, one `Broadcast` (recorded as `true`). -/
def onPersisterProgress {H : Type} (s : AppHerder H) : AppHerder H × Bool :=
  (s, true)

/-- Structured model of the `fmt.Errorf` rejections of `StartQuery`,
carrying the same numeric detail the Go error messages format. -/
inductive StartQueryErr
  | queryQuotaExceeded (size running quota : Nat)
  | appQuotaExceeded (size running indexing quota : Nat)
deriving DecidableEq

/-- Embedding of `StartQuery`: `memUsed := runningQueryUsed + size` (u64),
reject against `queryQuota`, then add `indexingMemoryLOCKED` (u64) and
reject against `appQuota`, else record the addition. The Go method mutates
the receiver only on admission; rejection returns the error and the
unchanged state. -/
def StartQuery {H : Type} (size : Nat) (s : AppHerder H) :
    AppHerder H × Option StartQueryErr :=
  let memUsed := add64 s.runningQueryUsed size
  if memUsed > s.queryQuota then
    (s, some (.queryQuotaExceeded size s.runningQueryUsed s.queryQuota))
  else
    let indexingMem := indexingMemoryLOCKED s
    let memUsed2 := add64 memUsed indexingMem
    if memUsed2 > s.appQuota then
      (s, some (.appQuotaExceeded size s.runningQueryUsed indexingMem
        s.appQuota))
    else
      ({ s with runningQueryUsed := add64 s.runningQueryUsed size }, none)

/-- Embedding of `EndQuery`: `runningQueryUsed -= size` with `uint64`
wraparound, then one `Broadcast` (recorded as `true`). -/
def EndQuery {H : Type} (size : Nat) (s : AppHerder H) : AppHerder H × Bool :=
  ({ s with runningQueryUsed := sub64 s.runningQueryUsed size }, true)

/-! Helper lemmas about the wrapping arithmetic. -/

theorem u64Mod_pos : 0 < u64Mod := by norm_num [u64Mod]

theorem add64_eq_of_lt {a b : Nat} (h : a + b < u64Mod) : add64 a b = a + b :=
  Nat.mod_eq_of_lt h

theorem sub64_add64_cancel (q n : Nat) (hq : q < u64Mod) :
    sub64 (add64 q n) n = q := by
  simp only [sub64, add64, u64Mod] at *
  omega

theorem foldl_add64_eq {H : Type} (l : List (H × sizeFunc H)) (a : Nat)
    (ha : a < u64Mod) :
    l.foldl (fun rv p => add64 rv (p.2 p.1)) a = (a + sumProbes l) % u64Mod := by
  induction l generalizing a with
  | nil =>
      simp [sumProbes, Nat.mod_eq_of_lt ha]
  | cons p t ih =>
      have hlt2 : add64 a (p.2 p.1) < u64Mod := Nat.mod_lt _ u64Mod_pos
      have step : List.foldl (fun rv q => add64 rv (q.2 q.1)) a (p :: t) =
          List.foldl (fun rv q => add64 rv (q.2 q.1)) (add64 a (p.2 p.1)) t :=
        rfl
      rw [step, ih (add64 a (p.2 p.1)) hlt2]
      have hsp : sumProbes (p :: t) = p.2 p.1 + sumProbes t := by
        simp [sumProbes]
      rw [hsp]
      simp only [add64, u64Mod]
      omega

theorem indexingMemory_eq_sumProbes {H : Type} (s : AppHerder H)
    (h : sumProbes s.indexes < u64Mod) :
    indexingMemoryLOCKED s = sumProbes s.indexes := by
  rw [indexingMemoryLOCKED, foldl_add64_eq _ 0 u64Mod_pos]
  simpa using Nat.mod_eq_of_lt (by simpa using h)

/-- Characterisation of the combined usage test in terms of the
mathematical probe sum, valid whenever the `uint64` quantities do not
wrap. -/
theorem overMemQuota_iff {H : Type} (s : AppHerder H)
    (hlt : sumProbes s.indexes + s.runningQueryUsed < u64Mod) :
    overMemQuotaForIndexingLOCKED s = true ↔
      (sumProbes s.indexes > s.indexQuota ∨
       sumProbes s.indexes + s.runningQueryUsed > s.appQuota) := by
  have hsum : sumProbes s.indexes < u64Mod := by omega
  have him : indexingMemoryLOCKED s = sumProbes s.indexes :=
    indexingMemory_eq_sumProbes s hsum
  have hadd : add64 (sumProbes s.indexes) s.runningQueryUsed =
      sumProbes s.indexes + s.runningQueryUsed := add64_eq_of_lt hlt
  unfold overMemQuotaForIndexingLOCKED
  rw [him]
  by_cases h1 : sumProbes s.indexes > s.indexQuota
  · simp [h1]
  · simp [h1, hadd]

theorem waitLoop_post {H : Type} {s u : AppHerder H} (h : waitLoop s u) :
    overMemQuotaForIndexingLOCKED u = false := by
  induction h with
  | exit s hover => exact hover
  | wait s t u hover hrest ih => exact ih

/-! Embedding of the engine event adapters (`onMossEvent`,
`onScorchEvent`) and their size probes. -/

/-- Model of `moss.CollectionStats`: only the `CurDirtyBytes` field the
herder reads. -/
structure MossStats where
  curDirtyBytes : Nat
deriving DecidableEq

/-- Model of `moss.CollectionOptions`: only the `LowerLevelUpdate` field
(a nilable function pointer in Go, so an `Option`; its payload is
irrelevant to the herder, which only nil-checks it). -/
structure MossOptions where
  lowerLevelUpdate : Option Nat
deriving DecidableEq

/-- Model of a `moss.Collection` handle: an identity, its options, and the
outcome of its `Stats()` call (`none` models `Stats` returning a non-nil
error). -/
structure MossCollection where
  id : Nat
  options : MossOptions
  stats : Option MossStats
deriving DecidableEq

/-- Model of a `*scorch.Scorch` handle: an identity and the value its
`MemoryUsed()` reports. -/
structure Scorch where
  id : Nat
  memoryUsed : Nat
deriving DecidableEq

/-- Go stores both engine handles in the same `map[interface{}]sizeFunc`;
`Handle` is the sum of the two concrete handle types. -/
inductive Handle
  | moss (c : MossCollection)
  | scorch (s : Scorch)
deriving DecidableEq

/-- Embedding of `mossSize`: `Stats()` error is treated as zero usage (the
Go code logs a warning and returns 0), otherwise `CurDirtyBytes`. -/
def mossSize (c : MossCollection) : Nat :=
  match c.stats with
  | none => 0
  | some st => st.curDirtyBytes

/-- The `sizeFunc` the moss adapter registers. The `.scorch` branch is the
Go type assertion `c.(moss.Collection)` failing; it is unreachable because
the adapter only ever registers this probe for moss handles. -/
def mossSizeF : sizeFunc Handle
  | .moss c => mossSize c
  | .scorch _ => 0

/-- Embedding of `scorchSize`: `MemoryUsed()` of the scorch handle. -/
def scorchSize (sc : Scorch) : Nat :=
  sc.memoryUsed

/-- The `sizeFunc` the scorch adapter registers; the `.moss` branch is the
unreachable failing type assertion, as in `mossSizeF`. -/
def scorchSizeF : sizeFunc Handle
  | .scorch sc => scorchSize sc
  | .moss _ => 0

/-- Model of `moss.EventKind`: the three kinds the adapter recognises plus
a supply of unrecognised kinds hitting the `default` branch. -/
inductive MossEventKind
  | close
  | batchExecuteStart
  | persisterProgress
  | other (k : Nat)
deriving DecidableEq

/-- Model of `moss.Event`: only the fields the adapter reads. -/
structure MossEvent where
  kind : MossEventKind
  collection : MossCollection

/-- Model of `scorch.EventKind` analogously. -/
inductive ScorchEventKind
  | close
  | batchIntroductionStart
  | persisterProgress
  | other (k : Nat)
deriving DecidableEq

/-- Model of `scorch.Event`: only the fields the adapter reads. -/
structure ScorchEvent where
  kind : ScorchEventKind
  scorch : Scorch

/-- Embedding of `onMossEvent` as a relation between the state before and
after handling the event (a relation because the batch-start branch calls
the blocking `onBatchExecuteStart`). The first guard of every non-`skip`
branch is the leading
`if event.Collection.Options().LowerLevelUpdate == nil { return }`. -/
inductive onMossEvent : MossEvent → AppHerder Handle → AppHerder Handle → Prop
  | skip (e : MossEvent) (s : AppHerder Handle)
      (hflag : e.collection.options.lowerLevelUpdate = none) :
      onMossEvent e s s
  | close (e : MossEvent) (s : AppHerder Handle)
      (hflag : e.collection.options.lowerLevelUpdate ≠ none)
      (hkind : e.kind = MossEventKind.close) :
      onMossEvent e s (onClose (Handle.moss e.collection) s).1
  | batchStart (e : MossEvent) (s u : AppHerder Handle)
      (hflag : e.collection.options.lowerLevelUpdate ≠ none)
      (hkind : e.kind = MossEventKind.batchExecuteStart)
      (hrun : onBatchExecuteStart (Handle.moss e.collection) mossSizeF s u) :
      onMossEvent e s u
  | progress (e : MossEvent) (s : AppHerder Handle)
      (hflag : e.collection.options.lowerLevelUpdate ≠ none)
      (hkind : e.kind = MossEventKind.persisterProgress) :
      onMossEvent e s (onPersisterProgress s).1
  | unrecognized (e : MossEvent) (s : AppHerder Handle) (k : Nat)
      (hflag : e.collection.options.lowerLevelUpdate ≠ none)
      (hkind : e.kind = MossEventKind.other k) :
      onMossEvent e s s

/-- Embedding of `onScorchEvent` as a relation, mirroring the Go switch
(there is no capability-flag gate on the scorch side). -/
inductive onScorchEvent : ScorchEvent → AppHerder Handle → AppHerder Handle → Prop
  | close (e : ScorchEvent) (s : AppHerder Handle)
      (hkind : e.kind = ScorchEventKind.close) :
      onScorchEvent e s (onClose (Handle.scorch e.scorch) s).1
  | batchStart (e : ScorchEvent) (s u : AppHerder Handle)
      (hkind : e.kind = ScorchEventKind.batchIntroductionStart)
      (hrun : onBatchExecuteStart (Handle.scorch e.scorch) scorchSizeF s u) :
      onScorchEvent e s u
  | progress (e : ScorchEvent) (s : AppHerder Handle)
      (hkind : e.kind = ScorchEventKind.persisterProgress) :
      onScorchEvent e s (onPersisterProgress s).1
  | unrecognized (e : ScorchEvent) (s : AppHerder Handle) (k : Nat)
      (hkind : e.kind = ScorchEventKind.other k) :
      onScorchEvent e s s

/-! Helper lemmas about the association-list map operations. -/

theorem eraseEntry_not_mem {H : Type} [DecidableEq H] (c : H)
    (l : List (H × sizeFunc H)) (hc : c ∉ l.map Prod.fst) :
    eraseEntry c l = l := by
  induction l with
  | nil => rfl
  | cons p t ih =>
      simp only [List.map_cons, List.mem_cons] at hc
      push_neg at hc
      obtain ⟨h1, h2⟩ := hc
      obtain ⟨k, g⟩ := p
      simp only [eraseEntry, if_neg (by simpa using (Ne.symm h1))]
      rw [ih h2]

theorem insertEntry_not_mem {H : Type} [DecidableEq H] (c : H)
    (f : sizeFunc H) (l : List (H × sizeFunc H)) (hc : c ∉ l.map Prod.fst) :
    insertEntry c f l = l ++ [(c, f)] := by
  induction l with
  | nil => rfl
  | cons p t ih =>
      simp only [List.map_cons, List.mem_cons] at hc
      push_neg at hc
      obtain ⟨h1, h2⟩ := hc
      obtain ⟨k, g⟩ := p
      simp only [insertEntry, if_neg (by simpa using (Ne.symm h1))]
      rw [ih h2]
      rfl

theorem eraseEntry_append_singleton {H : Type} [DecidableEq H] (c : H)
    (f : sizeFunc H) (l : List (H × sizeFunc H)) (hc : c ∉ l.map Prod.fst) :
    eraseEntry c (l ++ [(c, f)]) = l := by
  induction l with
  | nil => simp [eraseEntry]
  | cons p t ih =>
      simp only [List.map_cons, List.mem_cons] at hc
      push_neg at hc
      obtain ⟨h1, h2⟩ := hc
      obtain ⟨k, g⟩ := p
      simp only [List.cons_append, eraseEntry,
        if_neg (by simpa using (Ne.symm h1)), List.append_eq]
      rw [ih h2]

theorem sumProbes_append {H : Type} (l1 l2 : List (H × sizeFunc H)) :
    sumProbes (l1 ++ l2) = sumProbes l1 + sumProbes l2 := by
  simp [sumProbes]

theorem floor_toNat_bracket (x : ℚ) (hx : 0 ≤ x) :
    ((⌊x⌋.toNat : ℚ) ≤ x ∧ x < (⌊x⌋.toNat : ℚ) + 1) := by
  have h0 : (0 : ℤ) ≤ ⌊x⌋ := Int.floor_nonneg.mpr hx
  have hcast : ((⌊x⌋.toNat : ℚ)) = ((⌊x⌋ : ℤ) : ℚ) := by
    exact_mod_cast congrArg (fun z : ℤ => (z : ℚ)) (Int.toNat_of_nonneg h0)
  rw [hcast]
  exact ⟨Int.floor_le x, Int.lt_floor_add_one x⟩

/-- Projection of the three derived quotas, used to state that operations
leave them untouched. -/
def herderQuotas {H : Type} (s : AppHerder H) : Nat × Nat × Nat :=
  (s.appQuota, s.indexQuota, s.queryQuota)

theorem newAppHerder_appQuota (m : Nat) (a i q : ℚ) :
    (newAppHerder Nat m a i q).appQuota = (⌊(m : ℚ) * a⌋).toNat := rfl

theorem newAppHerder_indexQuota (m : Nat) (a i q : ℚ) :
    (newAppHerder Nat m a i q).indexQuota =
      (⌊(((newAppHerder Nat m a i q).appQuota : ℚ)) * i⌋).toNat := rfl

theorem newAppHerder_queryQuota (m : Nat) (a i q : ℚ) :
    (newAppHerder Nat m a i q).queryQuota =
      (⌊(((newAppHerder Nat m a i q).appQuota : ℚ)) * q⌋).toNat := rfl

theorem StartQuery_fst_quotas {H : Type} (size : Nat) (s : AppHerder H) :
    herderQuotas (StartQuery size s).1 = herderQuotas s := by
  unfold StartQuery
  by_cases h1 : add64 s.runningQueryUsed size > s.queryQuota
  · simp [h1]
  · by_cases h2 : add64 (add64 s.runningQueryUsed size)
        (indexingMemoryLOCKED s) > s.appQuota
    · simp [h1, h2]
    · simp [h1, h2, herderQuotas]

/-- Sample controller state used by concrete witnesses: the quotas of the
spec's first example scenario. -/
def sampleHerder : AppHerder Nat :=
  { memQuota := 1000
    appQuota := 800
    indexQuota := 400
    queryQuota := 400
    waiting := 0
    indexes := []
    runningQueryUsed := 0 }

/-- Sample state with one tracked index whose probe reports 300 bytes. -/
def sampleHerderA : AppHerder Nat :=
  { sampleHerder with indexes := [(7, fun _ => 300)] }

/-! Claim theorems. -/

/-- C1: the combined usage test `overMemQuotaForIndexingLOCKED` reports
over-budget iff the probe sum strictly exceeds `indexQuota` or the probe
sum plus `runningQueryUsed` strictly exceeds `appQuota`; in particular
when a total exactly equals its quota (and the other total is within its
own quota) the test reports not-over-budget — strict `>` only. Stated for
every state whose totals stay below `2 ^ 64`, so that the `uint64` sums
the code computes coincide with the mathematical sums. -/
theorem overMemQuota_strict_iff {H : Type} (s : AppHerder H)
    (hlt : sumProbes s.indexes + s.runningQueryUsed < 2 ^ 64) :
    (overMemQuotaForIndexingLOCKED s = true ↔
      (sumProbes s.indexes > s.indexQuota ∨
       sumProbes s.indexes + s.runningQueryUsed > s.appQuota)) ∧
    (sumProbes s.indexes = s.indexQuota →
      sumProbes s.indexes + s.runningQueryUsed ≤ s.appQuota →
      overMemQuotaForIndexingLOCKED s = false) ∧
    (sumProbes s.indexes + s.runningQueryUsed = s.appQuota →
      sumProbes s.indexes ≤ s.indexQuota →
      overMemQuotaForIndexingLOCKED s = false) := by
  have hlt2 : sumProbes s.indexes + s.runningQueryUsed < u64Mod := by
    rw [u64Mod_eq]; exact hlt
  have hiff := overMemQuota_iff s hlt2
  refine ⟨hiff, ?_, ?_⟩
  · intro h1 h2
    rw [Bool.eq_false_iff]
    intro hov
    have hd := hiff.mp hov
    omega
  · intro h1 h2
    rw [Bool.eq_false_iff]
    intro hov
    have hd := hiff.mp hov
    omega

/-- Witness for `overMemQuota_strict_iff` at a concrete state: one
tracked index reporting 300 bytes against quotas 400/800. -/
theorem overMemQuota_strict_iff_witness :
    (overMemQuotaForIndexingLOCKED sampleHerderA = true ↔
      (sumProbes sampleHerderA.indexes > sampleHerderA.indexQuota ∨
       sumProbes sampleHerderA.indexes + sampleHerderA.runningQueryUsed >
         sampleHerderA.appQuota)) ∧
    (sumProbes sampleHerderA.indexes = sampleHerderA.indexQuota →
      sumProbes sampleHerderA.indexes + sampleHerderA.runningQueryUsed ≤
        sampleHerderA.appQuota →
      overMemQuotaForIndexingLOCKED sampleHerderA = false) ∧
    (sumProbes sampleHerderA.indexes + sampleHerderA.runningQueryUsed =
        sampleHerderA.appQuota →
      sumProbes sampleHerderA.indexes ≤ sampleHerderA.indexQuota →
      overMemQuotaForIndexingLOCKED sampleHerderA = false) :=
  overMemQuota_strict_iff sampleHerderA (by decide)

/-- C3: `onBatchExecuteStart` (the register signal) adds the tracked
entry and then waits in the guard re-check loop; whenever it returns —
after any interleaving of environment steps during its waits — the
combined usage test is false in the return state, hence (whenever the
totals do not wrap) the probe sum is within `indexQuota` and the probe
sum plus `runningQueryUsed` is within `appQuota`. -/
theorem onBatchExecuteStart_post {H : Type} [DecidableEq H] (c : H)
    (f : sizeFunc H) (s u : AppHerder H)
    (hreg : onBatchExecuteStart c f s u) :
    overMemQuotaForIndexingLOCKED u = false ∧
    (sumProbes u.indexes + u.runningQueryUsed < 2 ^ 64 →
      sumProbes u.indexes ≤ u.indexQuota ∧
      sumProbes u.indexes + u.runningQueryUsed ≤ u.appQuota) := by
  have hov := waitLoop_post hreg
  refine ⟨hov, ?_⟩
  intro hlt
  have hlt2 : sumProbes u.indexes + u.runningQueryUsed < u64Mod := by
    rw [u64Mod_eq]; exact hlt
  have hiff := overMemQuota_iff u hlt2
  have hnd : ¬(sumProbes u.indexes > u.indexQuota ∨
      sumProbes u.indexes + u.runningQueryUsed > u.appQuota) := by
    intro hd
    have htrue := hiff.mpr hd
    rw [hov] at htrue
    exact Bool.false_ne_true htrue
  push_neg at hnd
  exact hnd

/-- Witness for `onBatchExecuteStart_post`: registering index 7 with a
300-byte probe on the empty sample state returns immediately (the loop
guard is false at once), and the conclusion holds there. -/
theorem onBatchExecuteStart_post_witness :
    overMemQuotaForIndexingLOCKED
      (registerEntry 7 (fun _ => 300) sampleHerder) = false ∧
    (sumProbes (registerEntry 7 (fun _ => 300) sampleHerder).indexes +
        (registerEntry 7 (fun _ => 300) sampleHerder).runningQueryUsed <
        2 ^ 64 →
      sumProbes (registerEntry 7 (fun _ => 300) sampleHerder).indexes ≤
        (registerEntry 7 (fun _ => 300) sampleHerder).indexQuota ∧
      sumProbes (registerEntry 7 (fun _ => 300) sampleHerder).indexes +
          (registerEntry 7 (fun _ => 300) sampleHerder).runningQueryUsed ≤
        (registerEntry 7 (fun _ => 300) sampleHerder).appQuota) :=
  onBatchExecuteStart_post 7 (fun _ => 300) sampleHerder
    (registerEntry 7 (fun _ => 300) sampleHerder)
    (waitLoop.exit _ (by decide))

/-- C4: construction derives the three budgets once, as a pure function
of its inputs — `appQuota` is `total * appRatio` truncated, `indexQuota`
is `appQuota * indexRatio` truncated, `queryQuota` is
`appQuota * queryRatio` truncated (each within 1 of the exact product,
i.e. integer-truncation tolerance) — and no operation of the controller
changes any of the three quotas afterwards. -/
theorem newAppHerder_quotas (memQuota : Nat)
    (appRatio indexRatio queryRatio : ℚ) (ha : 0 ≤ appRatio)
    (hi : 0 ≤ indexRatio) (hq : 0 ≤ queryRatio) :
    (((newAppHerder Nat memQuota appRatio indexRatio queryRatio).appQuota :
        ℚ) ≤ (memQuota : ℚ) * appRatio ∧
      (memQuota : ℚ) * appRatio <
        ((newAppHerder Nat memQuota appRatio indexRatio
          queryRatio).appQuota : ℚ) + 1) ∧
    (((newAppHerder Nat memQuota appRatio indexRatio
        queryRatio).indexQuota : ℚ) ≤
        ((newAppHerder Nat memQuota appRatio indexRatio
          queryRatio).appQuota : ℚ) * indexRatio ∧
      ((newAppHerder Nat memQuota appRatio indexRatio
          queryRatio).appQuota : ℚ) * indexRatio <
        ((newAppHerder Nat memQuota appRatio indexRatio
          queryRatio).indexQuota : ℚ) + 1) ∧
    (((newAppHerder Nat memQuota appRatio indexRatio
        queryRatio).queryQuota : ℚ) ≤
        ((newAppHerder Nat memQuota appRatio indexRatio
          queryRatio).appQuota : ℚ) * queryRatio ∧
      ((newAppHerder Nat memQuota appRatio indexRatio
          queryRatio).appQuota : ℚ) * queryRatio <
        ((newAppHerder Nat memQuota appRatio indexRatio
          queryRatio).queryQuota : ℚ) + 1) ∧
    (∀ (s : AppHerder Nat) (c : Nat) (f : sizeFunc Nat) (size : Nat),
      herderQuotas (onClose c s).1 = herderQuotas s ∧
      herderQuotas (registerEntry c f s) = herderQuotas s ∧
      herderQuotas (StartQuery size s).1 = herderQuotas s ∧
      herderQuotas (EndQuery size s).1 = herderQuotas s ∧
      herderQuotas (onPersisterProgress s).1 = herderQuotas s) := by
  refine ⟨?_, ?_, ?_, ?_⟩
  · rw [newAppHerder_appQuota]
    exact floor_toNat_bracket _ (mul_nonneg (Nat.cast_nonneg _) ha)
  · rw [newAppHerder_indexQuota]
    exact floor_toNat_bracket _ (mul_nonneg (Nat.cast_nonneg _) hi)
  · rw [newAppHerder_queryQuota]
    exact floor_toNat_bracket _ (mul_nonneg (Nat.cast_nonneg _) hq)
  · intro s c f size
    exact ⟨rfl, rfl, StartQuery_fst_quotas size s, rfl, rfl⟩

/-- C2 counterexample: with `runningQueryUsed = 50`, `queryQuota = 100`
and `appQuota = 200`, the huge size `2 ^ 64 - 40` wraps the `uint64` test
value `runningQueryUsed + size` to 10 and the query is admitted, although
`50 + size` exceeds `queryQuota` — refuting the claimed equivalence for
every state and every size. -/
theorem startQuery_admission_cex :
    (StartQuery 18446744073709551576
      { memQuota := 1000
        appQuota := 200
        indexQuota := 100
        queryQuota := 100
        waiting := 0
        indexes := ([] : List (Nat × sizeFunc Nat))
        runningQueryUsed := 50 }).2 = none ∧
    ¬(50 + 18446744073709551576 ≤ 100) := by
  constructor
  · decide
  · decide

/-- C2 (amended): whenever `runningQueryUsed + size + Σ sizeProbe` does
not wrap in `uint64`, `StartQuery size` admits — returning success and
adding `size` to `runningQueryUsed` — iff
`runningQueryUsed + size ≤ queryQuota` and
`runningQueryUsed + size + Σ sizeProbe ≤ appQuota`; when the first
condition fails it rejects with the query-quota reason, when only the
second fails with the application-quota reason, and every rejection
leaves the state unchanged. -/
theorem startQuery_admission_spec {H : Type} (s : AppHerder H) (size : Nat)
    (hlt : s.runningQueryUsed + size + sumProbes s.indexes < 2 ^ 64) :
    ((StartQuery size s).2 = none ↔
      (s.runningQueryUsed + size ≤ s.queryQuota ∧
       s.runningQueryUsed + size + sumProbes s.indexes ≤ s.appQuota)) ∧
    ((StartQuery size s).2 = none →
      (StartQuery size s).1 =
        { s with runningQueryUsed := s.runningQueryUsed + size }) ∧
    (s.queryQuota < s.runningQueryUsed + size →
      (StartQuery size s).2 = some (StartQueryErr.queryQuotaExceeded size
        s.runningQueryUsed s.queryQuota)) ∧
    (s.runningQueryUsed + size ≤ s.queryQuota →
      s.appQuota < s.runningQueryUsed + size + sumProbes s.indexes →
      (StartQuery size s).2 = some (StartQueryErr.appQuotaExceeded size
        s.runningQueryUsed (sumProbes s.indexes) s.appQuota)) ∧
    (∀ e, (StartQuery size s).2 = some e → (StartQuery size s).1 = s) := by
  have hM : u64Mod = 2 ^ 64 := u64Mod_eq
  have h1 : add64 s.runningQueryUsed size = s.runningQueryUsed + size :=
    add64_eq_of_lt (by omega)
  have him : indexingMemoryLOCKED s = sumProbes s.indexes :=
    indexingMemory_eq_sumProbes s (by omega)
  have h2 : add64 (s.runningQueryUsed + size) (sumProbes s.indexes) =
      s.runningQueryUsed + size + sumProbes s.indexes :=
    add64_eq_of_lt (by omega)
  by_cases hc1 : s.runningQueryUsed + size > s.queryQuota
  · have hif1 : StartQuery size s =
        (s, some (StartQueryErr.queryQuotaExceeded size s.runningQueryUsed
          s.queryQuota)) := by
      simp only [StartQuery, h1, him, h2]
      rw [if_pos hc1]
    refine ⟨?_, ?_, ?_, ?_, ?_⟩
    · rw [hif1]; simp; omega
    · rw [hif1]; simp
    · intro _; rw [hif1]
    · intro hle _; omega
    · intro e _; rw [hif1]
  · by_cases hc2 : s.runningQueryUsed + size + sumProbes s.indexes >
        s.appQuota
    · have hif2 : StartQuery size s =
          (s, some (StartQueryErr.appQuotaExceeded size s.runningQueryUsed
            (sumProbes s.indexes) s.appQuota)) := by
        simp only [StartQuery, h1, him, h2]
        rw [if_neg hc1, if_pos hc2]
      refine ⟨?_, ?_, ?_, ?_, ?_⟩
      · rw [hif2]; simp; omega
      · rw [hif2]; simp
      · intro hgt; omega
      · intro _ _; rw [hif2]
      · intro e _; rw [hif2]
    · have hif3 : StartQuery size s =
          ({ s with runningQueryUsed := s.runningQueryUsed + size },
            none) := by
        simp only [StartQuery, h1, him, h2]
        rw [if_neg hc1, if_neg hc2]
      refine ⟨?_, ?_, ?_, ?_, ?_⟩
      · rw [hif3]; simp; omega
      · intro _; rw [hif3]
      · intro hgt; omega
      · intro _ hgt; omega
      · intro e he; rw [hif3] at he; simp at he

/-- Witness for `startQuery_admission_spec`: on the sample state with one
300-byte index and no running queries, a 50-byte query is admitted. -/
theorem startQuery_admission_spec_witness :
    ((StartQuery 50 sampleHerderA).2 = none ↔
      (sampleHerderA.runningQueryUsed + 50 ≤ sampleHerderA.queryQuota ∧
       sampleHerderA.runningQueryUsed + 50 + sumProbes sampleHerderA.indexes ≤
         sampleHerderA.appQuota)) ∧
    ((StartQuery 50 sampleHerderA).2 = none →
      (StartQuery 50 sampleHerderA).1 =
        { sampleHerderA with
            runningQueryUsed := sampleHerderA.runningQueryUsed + 50 }) ∧
    (sampleHerderA.queryQuota < sampleHerderA.runningQueryUsed + 50 →
      (StartQuery 50 sampleHerderA).2 =
        some (StartQueryErr.queryQuotaExceeded 50
          sampleHerderA.runningQueryUsed sampleHerderA.queryQuota)) ∧
    (sampleHerderA.runningQueryUsed + 50 ≤ sampleHerderA.queryQuota →
      sampleHerderA.appQuota <
        sampleHerderA.runningQueryUsed + 50 + sumProbes sampleHerderA.indexes →
      (StartQuery 50 sampleHerderA).2 =
        some (StartQueryErr.appQuotaExceeded 50
          sampleHerderA.runningQueryUsed (sumProbes sampleHerderA.indexes)
          sampleHerderA.appQuota)) ∧
    (∀ e, (StartQuery 50 sampleHerderA).2 = some e →
      (StartQuery 50 sampleHerderA).1 = sampleHerderA) :=
  startQuery_admission_spec sampleHerderA 50 (by decide)

/-- C5: after a successful `StartQuery size`, `EndQuery size` restores
`runningQueryUsed` exactly to its pre-admission value, for every state
whose counter is in `uint64` range. -/
theorem endQuery_startQuery_roundtrip {H : Type} (s : AppHerder H)
    (size : Nat) (hq : s.runningQueryUsed < 2 ^ 64)
    (hadm : (StartQuery size s).2 = none) :
    (EndQuery size (StartQuery size s).1).1.runningQueryUsed =
      s.runningQueryUsed := by
  have hq2 : s.runningQueryUsed < u64Mod := by rw [u64Mod_eq]; exact hq
  unfold StartQuery at hadm ⊢
  by_cases hc1 : add64 s.runningQueryUsed size > s.queryQuota
  · simp [hc1] at hadm
  · by_cases hc2 : add64 (add64 s.runningQueryUsed size)
        (indexingMemoryLOCKED s) > s.appQuota
    · simp [hc1, hc2] at hadm
    · simp only [if_neg hc1, if_neg hc2]
      simp [EndQuery, sub64_add64_cancel _ _ hq2]

/-- Witness for `endQuery_startQuery_roundtrip`: a 50-byte query on the
empty sample state, started and then ended. -/
theorem endQuery_startQuery_roundtrip_witness :
    (EndQuery 50 (StartQuery 50 sampleHerder).1).1.runningQueryUsed =
      sampleHerder.runningQueryUsed :=
  endQuery_startQuery_roundtrip sampleHerder 50 (by decide) (by decide)

/-- Witness for `newAppHerder_quotas` at the spec's example
configuration `total = 1000`, ratios `0.8, 0.5, 0.5`: the `appQuota`
bracket. -/
theorem newAppHerder_quotas_witness :
    ((newAppHerder Nat 1000 (4 / 5) (1 / 2) (1 / 2)).appQuota : ℚ) ≤
      ((1000 : Nat) : ℚ) * (4 / 5) ∧
    ((1000 : Nat) : ℚ) * (4 / 5) <
      ((newAppHerder Nat 1000 (4 / 5) (1 / 2) (1 / 2)).appQuota : ℚ) + 1 :=
  (newAppHerder_quotas 1000 (4 / 5) (1 / 2) (1 / 2) (by norm_num)
    (by norm_num) (by norm_num)).1

/-- C6: `onClose` (unregister) on an untracked handle leaves the whole
state unchanged (no-op, no error), and `onClose` right after
`registerEntry` of the same handle removes its contribution entirely,
restoring the original state (and hence the original probe sum). -/
theorem onClose_unregister_spec {H : Type} [DecidableEq H]
    (s : AppHerder H) (c : H) (f : sizeFunc H)
    (hc : c ∉ s.indexes.map Prod.fst) :
    (onClose c s).1 = s ∧
    (onClose c (registerEntry c f s)).1 = s := by
  constructor
  · show ({ s with indexes := eraseEntry c s.indexes } : AppHerder H) = s
    rw [eraseEntry_not_mem c s.indexes hc]
  · have h1 : eraseEntry c (insertEntry c f s.indexes) = s.indexes := by
      rw [insertEntry_not_mem c f s.indexes hc,
        eraseEntry_append_singleton c f s.indexes hc]
    show ({ s with indexes := eraseEntry c (insertEntry c f s.indexes) } :
        AppHerder H) = s
    rw [h1]

/-- Witness for `onClose_unregister_spec`: handle 3 on the sample state
with an empty tracked map. -/
theorem onClose_unregister_spec_witness :
    (onClose 3 sampleHerder).1 = sampleHerder ∧
    (onClose 3 (registerEntry 3 (fun _ => 5) sampleHerder)).1 =
      sampleHerder :=
  onClose_unregister_spec sampleHerder 3 (fun _ => 5) (by decide)

/-- Sample controller state over the real `Handle` type, for the adapter
claims. -/
def sampleMossHerder : AppHerder Handle :=
  { memQuota := 1000
    appQuota := 800
    indexQuota := 400
    queryQuota := 400
    waiting := 0
    indexes := []
    runningQueryUsed := 0 }

/-- C7: a size-probe failure (`Stats()` returning an error) is treated as
zero usage: `mossSize` reports 0 for the failing collection, and
registering it leaves the probe sum of the tracked indexes unchanged; the
failure is only logged, never propagated (every controller operation is
total, the sole caller-visible errors being the quota rejections of
`StartQuery`). -/
theorem mossSize_error_zero (c : MossCollection) (he : c.stats = none) :
    mossSize c = 0 ∧
    ∀ s : AppHerder Handle, Handle.moss c ∉ s.indexes.map Prod.fst →
      sumProbes (registerEntry (Handle.moss c) mossSizeF s).indexes =
        sumProbes s.indexes := by
  have h0 : mossSize c = 0 := by rw [mossSize, he]
  refine ⟨h0, ?_⟩
  intro s hs
  show sumProbes (insertEntry (Handle.moss c) mossSizeF s.indexes) =
    sumProbes s.indexes
  rw [insertEntry_not_mem _ _ _ hs, sumProbes_append]
  simp [sumProbes, mossSizeF, h0]

/-- A moss collection whose statistics probe fails. -/
def failingColl : MossCollection :=
  { id := 1
    options := { lowerLevelUpdate := some 0 }
    stats := none }

/-- Witness for `mossSize_error_zero`: a failing collection registered on
the empty sample state contributes zero. -/
theorem mossSize_error_zero_witness :
    mossSize failingColl = 0 ∧
    sumProbes
      (registerEntry (Handle.moss failingColl) mossSizeF
        sampleMossHerder).indexes = sumProbes sampleMossHerder.indexes :=
  ⟨(mossSize_error_zero failingColl rfl).1,
    (mossSize_error_zero failingColl rfl).2 sampleMossHerder (by decide)⟩

/-- C8: a moss event whose collection configuration lacks the
`LowerLevelUpdate` capability flag is ignored entirely — the adapter
relates the state only to itself, whatever the event kind — and an
unrecognized event kind from either engine source likewise causes no
mutation. -/
theorem event_adapter_ignores :
    (∀ (e : MossEvent) (s u : AppHerder Handle),
      e.collection.options.lowerLevelUpdate = none →
      onMossEvent e s u → u = s) ∧
    (∀ (e : MossEvent) (s u : AppHerder Handle) (k : Nat),
      e.kind = MossEventKind.other k → onMossEvent e s u → u = s) ∧
    (∀ (e : ScorchEvent) (s u : AppHerder Handle) (k : Nat),
      e.kind = ScorchEventKind.other k → onScorchEvent e s u → u = s) := by
  refine ⟨?_, ?_, ?_⟩
  · intro e s u hflag hev
    cases hev with
    | skip h1 => rfl
    | close h1 h2 => exact absurd hflag h1
    | batchStart u2 h1 h2 h3 => exact absurd hflag h1
    | progress h1 h2 => exact absurd hflag h1
    | unrecognized k2 h1 h2 => exact absurd hflag h1
  · intro e s u k hkind hev
    cases hev with
    | skip h1 => rfl
    | close h1 h2 =>
        rw [hkind] at h2
        exact MossEventKind.noConfusion h2
    | batchStart u2 h1 h2 h3 =>
        rw [hkind] at h2
        exact MossEventKind.noConfusion h2
    | progress h1 h2 =>
        rw [hkind] at h2
        exact MossEventKind.noConfusion h2
    | unrecognized k2 h1 h2 => rfl
  · intro e s u k hkind hev
    cases hev with
    | close h1 =>
        rw [hkind] at h1
        exact ScorchEventKind.noConfusion h1
    | batchStart u2 h1 h2 =>
        rw [hkind] at h1
        exact ScorchEventKind.noConfusion h1
    | progress h1 =>
        rw [hkind] at h1
        exact ScorchEventKind.noConfusion h1
    | unrecognized k2 h1 => rfl

/-- A batch-start moss event whose collection lacks the
`LowerLevelUpdate` capability flag. -/
def flagLessEvent : MossEvent :=
  { kind := MossEventKind.batchExecuteStart
    collection :=
      { id := 2
        options := { lowerLevelUpdate := none }
        stats := some { curDirtyBytes := 5 } } }

/-- Witness for `event_adapter_ignores`: the flag-less batch-start event
relates the sample state only to itself. -/
theorem event_adapter_ignores_witness :
    flagLessEvent.collection.options.lowerLevelUpdate = none ∧
    sampleMossHerder = sampleMossHerder :=
  ⟨rfl,
    event_adapter_ignores.1 flagLessEvent sampleMossHerder sampleMossHerder
      rfl (onMossEvent.skip flagLessEvent sampleMossHerder rfl)⟩

/-- C9: `onClose` (unregister) performs no broadcast on the shared
condition variable and leaves every field except the tracked-index
mapping unchanged; the broadcasts come only from `onPersisterProgress`
(notifyProgress) and `EndQuery`. -/
theorem onClose_no_broadcast {H : Type} [DecidableEq H] (s : AppHerder H)
    (c : H) (size : Nat) :
    (onClose c s).2 = false ∧
    (onClose c s).1.memQuota = s.memQuota ∧
    (onClose c s).1.appQuota = s.appQuota ∧
    (onClose c s).1.indexQuota = s.indexQuota ∧
    (onClose c s).1.queryQuota = s.queryQuota ∧
    (onClose c s).1.waiting = s.waiting ∧
    (onClose c s).1.runningQueryUsed = s.runningQueryUsed ∧
    (onClose c s).1.indexes = eraseEntry c s.indexes ∧
    (onPersisterProgress s).2 = true ∧
    (EndQuery size s).2 = true :=
  ⟨rfl, rfl, rfl, rfl, rfl, rfl, rfl, rfl, rfl, rfl⟩

/-- Controller state exhibiting the `StartQuery` wraparound of C10. -/
def wrapHerder : AppHerder Nat :=
  { memQuota := 2000
    appQuota := 1000
    indexQuota := 300
    queryQuota := 500
    waiting := 0
    indexes := []
    runningQueryUsed := 60 }

/-- Controller state exhibiting the `EndQuery` underflow of C10. -/
def underflowHerder : AppHerder Nat :=
  { wrapHerder with runningQueryUsed := 7 }

/-- C10: `runningQueryUsed` arithmetic is unguarded `uint64` modular
arithmetic. `StartQuery` with the huge size `2 ^ 64 - 50` on a counter of
60 wraps the test value to 10 and admits, although the true sum exceeds
every quota; `EndQuery 12` on a counter of 7 wraps the counter to
`2 ^ 64 - 5` instead of keeping a true running total. -/
theorem runningQueryUsed_wraparound :
    ((StartQuery 18446744073709551566 wrapHerder).2 = none ∧
      (StartQuery 18446744073709551566 wrapHerder).1.runningQueryUsed =
        10 ∧
      wrapHerder.runningQueryUsed + 18446744073709551566 >
        wrapHerder.queryQuota ∧
      wrapHerder.runningQueryUsed + 18446744073709551566 >
        wrapHerder.appQuota ∧
      wrapHerder.runningQueryUsed + 18446744073709551566 >
        wrapHerder.indexQuota ∧
      wrapHerder.runningQueryUsed + 18446744073709551566 >
        wrapHerder.memQuota) ∧
    ((EndQuery 12 underflowHerder).1.runningQueryUsed =
        18446744073709551611 ∧
      underflowHerder.runningQueryUsed < 12 ∧
      18446744073709551611 = 2 ^ 64 - 5) := by
  refine ⟨⟨?_, ?_, ?_, ?_, ?_, ?_⟩, ?_, ?_, ?_⟩ <;> decide
